import Mathlib

set_option linter.unusedVariables false

/-!
Verification development for the turnstile package (serve.go, client.go,
conn.go): a single-active-connection admission gate over a reopenable byte
stream, exposed as a net.Listener (`reopenListener`) and as a dialer
(`reopenDialer`).

The gate's mutable state (`closed` flag, nullable `closedCh` channel) and
the channel operations are embedded explicitly.  Concurrent executions are
modelled as interleavings of atomic steps, one step per lock-protected
section or blocking point of the Go code; a schedule is a list of labels
and `run` executes it.  Go `close` on a channel is recorded in a signaled
set; closing an already-closed channel is a run-time error, modelled as
`none`.
-/

/-- Channel identifiers stand for the `chan struct{}` values the gate
creates with `make(chan struct{})`. -/
abbrev ChanId := Nat

/-- Stream identifiers stand for the `io.ReadWriteCloser` values produced
by the open operation. -/
abbrev StreamId := Nat

/-- Errors surfaced by the Go code: `net.ErrClosed`, a context
cancellation error (`ctx.Err()`), or an error value produced by the open
operation (which the retry loops absorb). -/
inductive GoErr where
  | errClosed
  | ctxCanceled
  | openErr (code : Nat)
deriving Repr, DecidableEq

/-- Outcome of one `Accept`/`DialContext` call: a connection wrapper
(identified by its index in the order wrappers were created) or an error. -/
inductive Result where
  | conn (w : Nat)
  | fail (e : GoErr)
deriving Repr, DecidableEq

/-- Which method a call executes: `reopenListener.Accept` (serve.go) or
`reopenDialer.DialContext` (client.go). -/
inductive CallKind where
  | listener
  | dialer
deriving Repr, DecidableEq

/-- Shared mutable state of `reopenListener` (serve.go:17-24) and
`reopenDialer` (client.go:17-24): the `closed` flag and the `closedCh`
field, which is non-nil exactly while a connection slot is active. -/
structure Gate where
  closed : Bool
  closedCh : Option ChanId
deriving Repr, DecidableEq

/-- Go `close(ch)`: marks `ch` signaled.  Closing an already-closed
channel is a run-time error, modelled as `none`. -/
def chanClose (sg : List ChanId) (ch : ChanId) : Option (List ChanId) :=
  if ch ∈ sg then none else some (ch :: sg)

/-- Model of `reopenListener.Close` (serve.go:44-58) and of the
byte-for-byte identical `reopenDialer.Close` (client.go:42-57): set
`closed`, then, if `closedCh` is non-nil and not already signaled
(the `select`/`default` guard), close it.  Returns the new gate, the new
signaled set and the returned error (always nil). -/
def gateCloseFn (g : Gate) (sg : List ChanId) : Option (Gate × List ChanId × Option GoErr) :=
  let g' : Gate := { g with closed := true }
  match g.closedCh with
  | none => some (g', sg, none)
  | some ch =>
    if ch ∈ sg then some (g', sg, none)
    else
      match chanClose sg ch with
      | none => none
      | some sg' => some (g', sg', none)

/-- Model of the `onClose` callback installed on every wrapper
(serve.go:96-105, client.go:112-120): under the lock, if the gate's
current `closedCh` is non-nil, close it and set it to nil.  Note the
callback consults the gate's current field, not the channel that was
current when this wrapper was created. -/
def onCloseFn (g : Gate) (sg : List ChanId) : Option (Gate × List ChanId) :=
  match g.closedCh with
  | none => some (g, sg)
  | some ch =>
    match chanClose sg ch with
    | none => none
    | some sg' => some ({ g with closedCh := none }, sg')

/-- Backoff update after a completed sleep (serve.go:113-115,
client.go:139-141): `if backoff < 2*time.Second { backoff *= 2 }`,
in milliseconds. -/
def backoffAfter (b : Nat) : Nat := if b < 2000 then b * 2 else b

/-- The backoff slept before retry number `i` (0-based) within one call's
retry loop: starts at `100 * time.Millisecond` and evolves by
`backoffAfter`. -/
def backoffAt : Nat → Nat
  | 0 => 100
  | i + 1 => backoffAfter (backoffAt i)

/-- Total backoff slept by a call whose open operation fails `n` times
before succeeding. -/
def totalBackoff (n : Nat) : Nat := ((List.range n).map backoffAt).sum

/-- Program point of one in-flight `Accept`/`DialContext` call.  Each
constructor is the target of one atomic step of the Go code. -/
inductive Phase where
  | entry
  | dLoop
  | waiting (ch : ChanId)
  | waitDone (ch : ChanId)
  | opening (b : Nat)
  | dFailCheck (b : Nat)
  | sleeping (b : Nat)
  | opened (b : Nat) (strm : StreamId)
  | done (r : Result)
deriving Repr, DecidableEq

/-- One `Accept` or `DialContext` call, with two ghost histories: the
channels it has blocked on and the completed backoff sleeps (ms). -/
structure Thread where
  kind : CallKind
  phase : Phase
  ctxCancelled : Bool
  waitedOn : List ChanId
  slept : List Nat
deriving Repr, DecidableEq

/-- A connection wrapper (`rwConn`, conn.go:23-28) as created by the gate:
the channel installed in `closedCh` for it and the stream it owns. -/
structure Wrapper where
  ch : ChanId
  stream : StreamId
deriving Repr, DecidableEq

/-- Whole-system state: the gate, the set of signaled channels, fresh-id
counters, the call threads, every wrapper created so far, and the multiset
of underlying-stream closes performed. -/
structure Sys where
  gate : Gate
  sig : List ChanId
  nextCh : ChanId
  nextStream : StreamId
  threads : Nat → Thread
  wrappers : List Wrapper
  streamsClosed : List StreamId

/-- Replace thread `t`, leaving all other state alone. -/
def setThread (s : Sys) (t : Nat) (th : Thread) : Sys :=
  { s with threads := fun u => if u = t then th else s.threads u }

/-- Scheduler labels: one per atomic step a thread or the environment can
take. -/
inductive Label where
  | tstep (t : Nat)
  | wake (t : Nat)
  | cancelStep (t : Nat)
  | openAttempt (t : Nat) (res : Option Nat)
  | timerFire (t : Nat)
  | gateClose
  | wrapperClose (w : Nat)
  | cancelCtx (t : Nat)
deriving Repr, DecidableEq

/-- Deterministic thread step: entry sections, the dialer's loop
re-check, the listener's after-wait re-check, the dialer's closed
re-check after a failed open, and the post-open install/return section. -/
def stepTstep (s : Sys) (t : Nat) : Option Sys :=
  let th := s.threads t
  match th.phase, th.kind with
  | .entry, .listener =>
    -- serve.go:61-77: lock; closed check; active-slot check; unlock.
    if s.gate.closed then
      some (setThread s t { th with phase := .done (.fail .errClosed) })
    else
      match s.gate.closedCh with
      | some ch =>
        some (setThread s t { th with phase := .waiting ch, waitedOn := th.waitedOn ++ [ch] })
      | none => some (setThread s t { th with phase := .opening 100 })
  | .entry, .dialer =>
    -- client.go:62-65: fast-fail if the context is already cancelled.
    if th.ctxCancelled then
      some (setThread s t { th with phase := .done (.fail .ctxCanceled) })
    else some (setThread s t { th with phase := .dLoop })
  | .dLoop, .dialer =>
    -- client.go:69-87: one iteration of the admission loop's locked part.
    if s.gate.closed then
      some (setThread s t { th with phase := .done (.fail .errClosed) })
    else
      match s.gate.closedCh with
      | some ch =>
        some (setThread s t { th with phase := .waiting ch, waitedOn := th.waitedOn ++ [ch] })
      | none => some (setThread s t { th with phase := .opening 100 })
  | .waitDone ch, .listener =>
    -- serve.go:68-74: relock after the wait; only the closed flag is
    -- re-checked, then the call proceeds to the open loop.
    if s.gate.closed then
      some (setThread s t { th with phase := .done (.fail .errClosed) })
    else some (setThread s t { th with phase := .opening 100 })
  | .dFailCheck b, .dialer =>
    -- client.go:123-129: after a failed open, read `closed` under the lock.
    if s.gate.closed then
      some (setThread s t { th with phase := .done (.fail .errClosed) })
    else some (setThread s t { th with phase := .sleeping b })
  | .opened b strm, _ =>
    -- serve.go:82-95 / client.go:97-111: lock; if closed, close the fresh
    -- stream and fail; else install a fresh channel as the slot and
    -- return the wrapper.
    if s.gate.closed then
      some { setThread s t { th with phase := .done (.fail .errClosed) } with
               streamsClosed := s.streamsClosed ++ [strm] }
    else
      some { setThread s t { th with phase := .done (.conn s.wrappers.length) } with
               gate := { s.gate with closedCh := some s.nextCh }
               nextCh := s.nextCh + 1
               wrappers := s.wrappers ++ [⟨s.nextCh, strm⟩] }
  | _, _ => none

/-- Receive on the waited channel (`<-ch` at serve.go:67, the first
`select` arm at client.go:76-78): enabled once the channel is closed.
The listener falls through to its closed re-check; the dialer continues
its admission loop. -/
def stepWake (s : Sys) (t : Nat) : Option Sys :=
  let th := s.threads t
  match th.phase with
  | .waiting ch =>
    if ch ∈ s.sig then
      match th.kind with
      | .listener => some (setThread s t { th with phase := .waitDone ch })
      | .dialer => some (setThread s t { th with phase := .dLoop })
    else none
  | _ => none

/-- Context arm of the dialer's two `select`s (client.go:79-81 and
client.go:136-138): a cancelled waiter or sleeper returns `ctx.Err()`. -/
def stepCancel (s : Sys) (t : Nat) : Option Sys :=
  let th := s.threads t
  if th.kind = CallKind.dialer ∧ th.ctxCancelled = true then
    match th.phase with
    | .waiting _ => some (setThread s t { th with phase := .done (.fail .ctxCanceled) })
    | .sleeping _ => some (setThread s t { th with phase := .done (.fail .ctxCanceled) })
    | _ => none
  else none

/-- One open attempt (serve.go:81, client.go:92-96): the scheduler chooses
the result, `none` for success (yielding a fresh stream) and `some e` for
failure with error value `e`.  The dialer checks `ctx.Err()` at the top
of each loop iteration first.  On failure the listener reads `closed`
directly (serve.go:108-110) while the dialer takes a separate locked
re-check. -/
def stepOpen (s : Sys) (t : Nat) (res : Option Nat) : Option Sys :=
  let th := s.threads t
  match th.phase with
  | .opening b =>
    match th.kind with
    | .dialer =>
      if th.ctxCancelled then
        some (setThread s t { th with phase := .done (.fail .ctxCanceled) })
      else
        match res with
        | none =>
          some { setThread s t { th with phase := .opened b s.nextStream } with
                 nextStream := s.nextStream + 1 }
        | some _ => some (setThread s t { th with phase := .dFailCheck b })
    | .listener =>
      match res with
      | none =>
        some { setThread s t { th with phase := .opened b s.nextStream } with
               nextStream := s.nextStream + 1 }
      | some _ =>
        if s.gate.closed then
          some (setThread s t { th with phase := .done (.fail .errClosed) })
        else some (setThread s t { th with phase := .sleeping b })
  | _ => none

/-- End of a backoff sleep (serve.go:112, the timer arm of the `select`
at client.go:139): record the completed sleep and double the backoff if
it is still below two seconds. -/
def stepTimer (s : Sys) (t : Nat) : Option Sys :=
  let th := s.threads t
  match th.phase with
  | .sleeping b =>
    some (setThread s t { th with phase := .opening (backoffAfter b), slept := th.slept ++ [b] })
  | _ => none

/-- The gate's `Close` as one step (serve.go:44-58 / client.go:42-57). -/
def stepGateClose (s : Sys) : Option Sys :=
  match gateCloseFn s.gate s.sig with
  | none => none
  | some (g, sg, _) => some { s with gate := g, sig := sg }

/-- A consumer calls `Close` on wrapper `w` (`rwConn.Close`,
conn.go:35-40): run the gate's `onClose` notification, then close the
underlying stream.  May be invoked any number of times per wrapper. -/
def stepWrapperClose (s : Sys) (w : Nat) : Option Sys :=
  if w < s.wrappers.length then
    match onCloseFn s.gate s.sig with
    | none => none
    | some (g, sg) =>
      some { s with gate := g
                    sig := sg
                    streamsClosed := s.streamsClosed ++ [(s.wrappers.getD w ⟨0, 0⟩).stream] }
  else none

/-- The environment cancels thread `t`'s context (monotone). -/
def stepCancelCtx (s : Sys) (t : Nat) : Option Sys :=
  some (setThread s t { s.threads t with ctxCancelled := true })

/-- One scheduler step. -/
def step (s : Sys) : Label → Option Sys
  | .tstep t => stepTstep s t
  | .wake t => stepWake s t
  | .cancelStep t => stepCancel s t
  | .openAttempt t res => stepOpen s t res
  | .timerFire t => stepTimer s t
  | .gateClose => stepGateClose s
  | .wrapperClose w => stepWrapperClose s w
  | .cancelCtx t => stepCancelCtx s t

/-- Run a schedule; `none` once any step is disabled or hits a run-time
error. -/
def run (s : Sys) : List Label → Option Sys
  | [] => some s
  | l :: ls =>
    match step s l with
    | none => none
    | some s' => run s' ls

/-- A call that has just been issued: at its entry point, context not yet
cancelled, empty histories. -/
def initThread (k : CallKind) : Thread :=
  { kind := k, phase := .entry, ctxCancelled := false, waitedOn := [], slept := [] }

/-- A fresh gate (`NewReopenListener` / `NewReopenDialer`) together with a
population of pending calls of the given kinds. -/
def initSys (kinds : Nat → CallKind) : Sys :=
  { gate := { closed := false, closedCh := none }, sig := [], nextCh := 0, nextStream := 0,
    threads := fun t => initThread (kinds t), wrappers := [], streamsClosed := [] }

/-- The connection wrapper data visible to a consumer (`rwConn`,
conn.go:23-34): the owned stream and the two address stand-ins. -/
structure rwConn where
  stream : StreamId
  localAddr : String
  remoteAddr : String
deriving Repr, DecidableEq

/-- conn.go:32 `func (c *rwConn) SetDeadline(time.Time) error { return nil }`. -/
def rwConn.SetDeadline (c : rwConn) (t : Int) : rwConn × Option GoErr := (c, none)

/-- conn.go:33 `SetReadDeadline`: identical nil operation. -/
def rwConn.SetReadDeadline (c : rwConn) (t : Int) : rwConn × Option GoErr := (c, none)

/-- conn.go:34 `SetWriteDeadline`: identical nil operation. -/
def rwConn.SetWriteDeadline (c : rwConn) (t : Int) : rwConn × Option GoErr := (c, none)

/-- Reads forward directly to the embedded stream (the promoted
`io.ReadWriteCloser` method): the outcome is whatever the underlying
stream produces, a function of the stream alone. -/
def rwConn.Read (c : rwConn) (streamRead : StreamId → List Nat) : List Nat :=
  streamRead c.stream

/-- Writes forward directly to the embedded stream likewise. -/
def rwConn.Write (c : rwConn) (streamWrite : StreamId → Nat) : Nat :=
  streamWrite c.stream

/-! ## Basic lemmas about the step functions -/

@[simp]
theorem setThread_gate (s : Sys) (t : Nat) (th : Thread) : (setThread s t th).gate = s.gate := rfl

@[simp]
theorem setThread_sig (s : Sys) (t : Nat) (th : Thread) : (setThread s t th).sig = s.sig := rfl

@[simp]
theorem setThread_nextCh (s : Sys) (t : Nat) (th : Thread) :
    (setThread s t th).nextCh = s.nextCh := rfl

@[simp]
theorem setThread_nextStream (s : Sys) (t : Nat) (th : Thread) :
    (setThread s t th).nextStream = s.nextStream := rfl

@[simp]
theorem setThread_wrappers (s : Sys) (t : Nat) (th : Thread) :
    (setThread s t th).wrappers = s.wrappers := rfl

@[simp]
theorem setThread_streamsClosed (s : Sys) (t : Nat) (th : Thread) :
    (setThread s t th).streamsClosed = s.streamsClosed := rfl

@[simp]
theorem setThread_threads (s : Sys) (t : Nat) (th : Thread) (u : Nat) :
    (setThread s t th).threads u = if u = t then th else s.threads u := rfl

/-- Characterization of the gate's `Close`: it never hits a run-time
error, always returns a nil error, sets `closed`, leaves the slot field
as it was, and signals the active channel exactly when it was not yet
signaled. -/
theorem gateCloseFn_spec (g : Gate) (sg : List ChanId) :
    ∃ g' sg', gateCloseFn g sg = some (g', sg', none) ∧
      g'.closed = true ∧ g'.closedCh = g.closedCh ∧
      (∀ x ∈ sg, x ∈ sg') ∧
      (∀ ch, g.closedCh = some ch → ch ∈ sg') ∧
      (∀ x ∈ sg', x ∈ sg ∨ g.closedCh = some x) ∧
      ((∀ ch, g.closedCh = some ch → ch ∈ sg) → sg' = sg) := by
  rcases g with ⟨c, ch?⟩
  cases ch? with
  | none =>
    refine ⟨⟨true, none⟩, sg, ?_, rfl, rfl, fun x hx => hx, ?_, fun x hx => Or.inl hx, fun _ => rfl⟩
    · simp [gateCloseFn]
    · intro ch hch; cases hch
  | some ch =>
    by_cases hmem : ch ∈ sg
    · refine ⟨⟨true, some ch⟩, sg, ?_, rfl, rfl, fun x hx => hx, ?_, fun x hx => Or.inl hx,
        fun _ => rfl⟩
      · simp [gateCloseFn, hmem]
      · intro ch' hch'; cases hch'; exact hmem
    · refine ⟨⟨true, some ch⟩, ch :: sg, ?_, rfl, rfl, fun x hx => List.mem_cons_of_mem _ hx,
        ?_, ?_, ?_⟩
      · simp [gateCloseFn, hmem, chanClose]
      · intro ch' hch'; cases hch'; exact List.mem_cons_self _ _
      · intro x hx
        rcases List.mem_cons.mp hx with h | h
        · exact Or.inr (by rw [h])
        · exact Or.inl h
      · intro hall; exact absurd (hall ch rfl) hmem

/-- Characterization of the wrapper's `onClose` notification when it does
not hit a run-time error: either no slot was active and nothing happens,
or the currently active slot (whichever wrapper it belongs to) is
signaled and cleared. -/
theorem onCloseFn_spec (g : Gate) (sg : List ChanId) (g' : Gate) (sg' : List ChanId)
    (h : onCloseFn g sg = some (g', sg')) :
    (g.closedCh = none ∧ g' = g ∧ sg' = sg) ∨
      (∃ ch, g.closedCh = some ch ∧ ch ∉ sg ∧ g' = { g with closedCh := none } ∧
        sg' = ch :: sg) := by
  rcases g with ⟨c, ch?⟩
  cases ch? with
  | none =>
    simp only [onCloseFn, Option.some.injEq, Prod.mk.injEq] at h
    exact Or.inl ⟨rfl, h.1.symm, h.2.symm⟩
  | some ch =>
    simp only [onCloseFn, chanClose] at h
    by_cases hmem : ch ∈ sg
    · simp [hmem] at h
    · simp only [hmem, if_neg, ite_false, Option.some.injEq, Prod.mk.injEq] at h
      exact Or.inr ⟨ch, rfl, hmem, h.1.symm, h.2.symm⟩

/-! ## Invariants of reachable states -/

/-- Once the gate is closed, its active slot (if still installed) has
been signaled — this is what wakes blocked waiters. -/
def gateInv (s : Sys) : Prop :=
  s.gate.closed = true → ∀ ch, s.gate.closedCh = some ch → ch ∈ s.sig

/-- Ghost-history invariant: any channel a call has blocked on is either
the one it is still blocked on, already signaled, or the call has ended
in failure (the dialer's cancellation arm can abandon an unsignaled
channel). -/
def waitInv (s : Sys) (th : Thread) : Prop :=
  ∀ ch ∈ th.waitedOn, th.phase = .waiting ch ∨ ch ∈ s.sig ∨ ∃ e, th.phase = .done (.fail e)

/-- Admissible final results: open errors are never surfaced, and a
listener call never reports a cancellation error. -/
def resOK (k : CallKind) (r : Result) : Prop :=
  (∀ e, r ≠ .fail (.openErr e)) ∧ (k = .listener → r ≠ .fail .ctxCanceled)

/-- Every finished call has an admissible result. -/
def doneInv (th : Thread) : Prop :=
  ∀ r, th.phase = .done r → resOK th.kind r

/-- The backoff value carried by a phase inside the retry loop, if any. -/
def phaseBackoff : Phase → Option Nat
  | .opening b => some b
  | .dFailCheck b => some b
  | .sleeping b => some b
  | .opened b _ => some b
  | _ => none

/-- Phases before the call has entered its retry loop. -/
def preOpen : Phase → Prop
  | .entry => True
  | .dLoop => True
  | .waiting _ => True
  | .waitDone _ => True
  | _ => False

/-- Backoff bookkeeping: the completed sleeps are exactly the prefix of
the `backoffAt` sequence, and the backoff carried by the current phase is
the next element of that sequence. -/
def sleptInv (th : Thread) : Prop :=
  th.slept = (List.range th.slept.length).map backoffAt ∧
  (∀ b, phaseBackoff th.phase = some b → b = backoffAt th.slept.length) ∧
  (preOpen th.phase → th.slept = [])

/-- Conjunction of all reachability invariants. -/
def SysInv (s : Sys) : Prop :=
  gateInv s ∧ ∀ t, waitInv s (s.threads t) ∧ doneInv (s.threads t) ∧ sleptInv (s.threads t)

/-- Every step only adds to the signaled set. -/
theorem sig_mono (s s' : Sys) (l : Label) (h : step s l = some s') :
    ∀ x ∈ s.sig, x ∈ s'.sig := by
  cases l with
  | tstep t =>
    simp only [step, stepTstep] at h
    repeat' split at h
    all_goals first
      | exact Option.noConfusion h
      | (simp only [Option.some.injEq] at h; subst h; simp)
  | wake t =>
    simp only [step, stepWake] at h
    repeat' split at h
    all_goals first
      | exact Option.noConfusion h
      | (simp only [Option.some.injEq] at h; subst h; simp)
  | cancelStep t =>
    simp only [step, stepCancel] at h
    repeat' split at h
    all_goals first
      | exact Option.noConfusion h
      | (simp only [Option.some.injEq] at h; subst h; simp)
  | openAttempt t res =>
    simp only [step, stepOpen] at h
    repeat' split at h
    all_goals first
      | exact Option.noConfusion h
      | (simp only [Option.some.injEq] at h; subst h; simp)
  | timerFire t =>
    simp only [step, stepTimer] at h
    repeat' split at h
    all_goals first
      | exact Option.noConfusion h
      | (simp only [Option.some.injEq] at h; subst h; simp)
  | gateClose =>
    simp only [step, stepGateClose] at h
    split at h
    · exact Option.noConfusion h
    · rename_i g sg e heq
      simp only [Option.some.injEq] at h; subst h
      obtain ⟨g', sg', heq', _, _, hsub, _, _, _⟩ := gateCloseFn_spec s.gate s.sig
      rw [heq'] at heq
      injection heq with heq
      injection heq with h1 h2
      injection h2 with h2 _
      subst h1; subst h2
      simpa using hsub
  | wrapperClose w =>
    simp only [step, stepWrapperClose] at h
    split at h
    · split at h
      · exact Option.noConfusion h
      · rename_i g sg heq
        simp only [Option.some.injEq] at h; subst h
        rcases onCloseFn_spec _ _ _ _ heq with ⟨_, _, rfl⟩ | ⟨ch, _, _, _, rfl⟩
        · simp
        · intro x hx; exact List.mem_cons_of_mem _ hx
    · exact Option.noConfusion h
  | cancelCtx t =>
    simp only [step, stepCancelCtx, Option.some.injEq] at h
    subst h; simp

/-! ## Helper lemmas for invariant preservation -/

theorem waitInv_mono (s s' : Sys) (hsub : ∀ x ∈ s.sig, x ∈ s'.sig) (th : Thread)
    (h : waitInv s th) : waitInv s' th := by
  intro ch hch
  rcases h ch hch with h1 | h2 | h3
  · exact Or.inl h1
  · exact Or.inr (Or.inl (hsub ch h2))
  · exact Or.inr (Or.inr h3)

theorem waitInv_doneFail (s : Sys) (x : Thread) (e : GoErr)
    (hx : x.phase = .done (.fail e)) : waitInv s x :=
  fun ch hch => Or.inr (Or.inr ⟨e, hx⟩)

theorem waitInv_carry (s : Sys) (x x' : Thread) (old : waitInv s x)
    (hw : x'.waitedOn = x.waitedOn)
    (h1 : ∀ ch, x.phase ≠ .waiting ch)
    (h2 : ∀ e, x.phase ≠ .done (.fail e)) : waitInv s x' := by
  intro ch hch
  rw [hw] at hch
  rcases old ch hch with ha | hb | ⟨e, he⟩
  · exact absurd ha (h1 ch)
  · exact Or.inr (Or.inl hb)
  · exact absurd he (h2 e)

theorem waitInv_toWaiting (s : Sys) (x x' : Thread) (ch : ChanId) (old : waitInv s x)
    (hw : x'.waitedOn = x.waitedOn ++ [ch]) (hx : x'.phase = .waiting ch)
    (h1 : ∀ c, x.phase ≠ .waiting c) (h2 : ∀ e, x.phase ≠ .done (.fail e)) :
    waitInv s x' := by
  intro c hc
  rw [hw, List.mem_append] at hc
  rcases hc with hc | hc
  · rcases old c hc with ha | hb | ⟨e, he⟩
    · exact absurd ha (h1 c)
    · exact Or.inr (Or.inl hb)
    · exact absurd he (h2 e)
  · simp only [List.mem_singleton] at hc
    subst hc
    exact Or.inl hx

theorem waitInv_wake (s : Sys) (x x' : Thread) (ch : ChanId) (old : waitInv s x)
    (hx : x.phase = .waiting ch) (hsig : ch ∈ s.sig) (hw : x'.waitedOn = x.waitedOn) :
    waitInv s x' := by
  intro c hc
  rw [hw] at hc
  rcases old c hc with ha | hb | ⟨e, he⟩
  · have hcc : Phase.waiting c = Phase.waiting ch := ha.symm.trans hx
    injection hcc with hcc
    exact Or.inr (Or.inl (hcc ▸ hsig))
  · exact Or.inr (Or.inl hb)
  · have := he.symm.trans hx
    exact absurd this (by simp)

theorem doneInv_ofNot (x : Thread) (h : ∀ r, x.phase ≠ .done r) : doneInv x :=
  fun r hr => absurd hr (h r)

theorem doneInv_of (x : Thread) (r₀ : Result) (hx : x.phase = .done r₀)
    (h : resOK x.kind r₀) : doneInv x := by
  intro r hr
  have : Phase.done r₀ = Phase.done r := hx.symm.trans hr
  injection this with this
  exact this ▸ h

theorem resOK_errClosed (k : CallKind) : resOK k (.fail .errClosed) := by
  constructor
  · intro e h; simp at h
  · intro _ h; simp at h

theorem resOK_conn (k : CallKind) (w : Nat) : resOK k (.conn w) := by
  constructor
  · intro e h; simp at h
  · intro _ h; simp at h

theorem resOK_cancelDialer : resOK .dialer (.fail .ctxCanceled) := by
  constructor
  · intro e h; simp at h
  · intro h; simp at h

theorem sleptInv_mk (x x' : Thread) (hsl : x'.slept = x.slept)
    (hb : ∀ b, phaseBackoff x'.phase = some b → phaseBackoff x.phase = some b)
    (hp : preOpen x'.phase → preOpen x.phase)
    (old : sleptInv x) : sleptInv x' := by
  obtain ⟨o1, o2, o3⟩ := old
  refine ⟨by rw [hsl]; exact o1, ?_, ?_⟩
  · intro b hbb; rw [hsl]; exact o2 b (hb b hbb)
  · intro hpre; rw [hsl]; exact o3 (hp hpre)

theorem sleptInv_opening100 (x x' : Thread) (hsl : x'.slept = x.slept)
    (hx : x'.phase = .opening 100) (hpre : preOpen x.phase) (old : sleptInv x) :
    sleptInv x' := by
  obtain ⟨o1, o2, o3⟩ := old
  have hnil : x.slept = [] := o3 hpre
  refine ⟨by rw [hsl, hnil]; rfl, ?_, ?_⟩
  · intro b hb
    rw [hx] at hb
    simp only [phaseBackoff, Option.some.injEq] at hb
    rw [hsl, hnil, ← hb]
    rfl
  · intro hpre'
    rw [hx] at hpre'
    exact absurd hpre' (by simp [preOpen])

theorem sleptInv_timer (x x' : Thread) (b : Nat)
    (hx : x.phase = .sleeping b) (hx' : x'.phase = .opening (backoffAfter b))
    (hsl : x'.slept = x.slept ++ [b]) (old : sleptInv x) : sleptInv x' := by
  obtain ⟨o1, o2, o3⟩ := old
  have hb : b = backoffAt x.slept.length := o2 b (by rw [hx]; rfl)
  refine ⟨?_, ?_, ?_⟩
  · rw [hsl]
    simp only [List.length_append, List.length_singleton]
    rw [List.range_succ, List.map_append]
    rw [← o1]
    simp [hb]
  · intro b' hb'
    rw [hx'] at hb'
    simp only [phaseBackoff, Option.some.injEq] at hb'
    rw [hsl]
    simp only [List.length_append, List.length_singleton]
    rw [← hb', hb]
    rfl
  · intro hpre
    rw [hx'] at hpre
    exact absurd hpre (by simp [preOpen])

/-- Replacing one thread while leaving the gate and signaled set alone
preserves the system invariant, provided the new thread state satisfies
the per-thread invariants. -/
theorem SysInv_update (s : Sys) (t : Nat) (th' : Thread) (s' : Sys)
    (hg : s'.gate = s.gate) (hsg : s'.sig = s.sig)
    (hth : ∀ u, s'.threads u = if u = t then th' else s.threads u)
    (hInv : SysInv s) (hw : waitInv s th') (hd : doneInv th') (hs : sleptInv th') :
    SysInv s' := by
  obtain ⟨hgi, hts⟩ := hInv
  refine ⟨?_, fun u => ?_⟩
  · intro hc ch hch
    rw [hg] at hc hch
    rw [hsg]
    exact hgi hc ch hch
  · rw [hth u]
    by_cases hu : u = t
    · simp only [hu, if_pos rfl]
      exact ⟨waitInv_mono s s' (by rw [hsg]; exact fun x hx => hx) th' hw, hd, hs⟩
    · simp only [if_neg hu]
      obtain ⟨w, d, sl⟩ := hts u
      exact ⟨waitInv_mono s s' (by rw [hsg]; exact fun x hx => hx) _ w, d, sl⟩

/-- Variant of `SysInv_update` for the install step, which also rewrites
the gate's slot while the gate is still open. -/
theorem SysInv_install (s : Sys) (t : Nat) (th' : Thread) (s' : Sys)
    (hg : s'.gate.closed = false)
    (hsg : s'.sig = s.sig)
    (hth : ∀ u, s'.threads u = if u = t then th' else s.threads u)
    (hInv : SysInv s) (hw : waitInv s th') (hd : doneInv th') (hs : sleptInv th') :
    SysInv s' := by
  obtain ⟨hgi, hts⟩ := hInv
  refine ⟨?_, fun u => ?_⟩
  · intro hc
    rw [hg] at hc
    exact absurd hc (by simp)
  · rw [hth u]
    by_cases hu : u = t
    · simp only [hu, if_pos rfl]
      exact ⟨waitInv_mono s s' (by rw [hsg]; exact fun x hx => hx) th' hw, hd, hs⟩
    · simp only [if_neg hu]
      obtain ⟨w, d, sl⟩ := hts u
      exact ⟨waitInv_mono s s' (by rw [hsg]; exact fun x hx => hx) _ w, d, sl⟩

/-- Every step of the system preserves the reachability invariants. -/
theorem SysInv_step (s s' : Sys) (l : Label) (h : step s l = some s') (hInv : SysInv s) :
    SysInv s' := by
  have hts := hInv.2
  cases l with
  | tstep t =>
    simp only [step] at h
    cases hph : (s.threads t).phase with
    | entry =>
      cases hk : (s.threads t).kind with
      | listener =>
        simp only [stepTstep, hph, hk] at h
        split at h
        · simp only [Option.some.injEq] at h
          subst h
          refine SysInv_update s t _ _ rfl rfl (fun u => rfl) hInv ?_ ?_ ?_
          · exact waitInv_doneFail _ _ .errClosed rfl
          · exact doneInv_of _ _ rfl (resOK_errClosed _)
          · exact sleptInv_mk (s.threads t) _ rfl (by intro b hb; simp [phaseBackoff] at hb)
              (by intro hp; simp [preOpen] at hp) (hts t).2.2
        · split at h
          · rename_i ch hcc
            simp only [Option.some.injEq] at h
            subst h
            refine SysInv_update s t _ _ rfl rfl (fun u => rfl) hInv ?_ ?_ ?_
            · refine waitInv_toWaiting s _ _ ch (hts t).1 rfl rfl ?_ ?_
              · intro c; rw [hph]; simp
              · intro e; rw [hph]; simp
            · exact doneInv_ofNot _ (by intro r; simp)
            · refine sleptInv_mk (s.threads t) _ rfl (by intro b hb; simp [phaseBackoff] at hb)
                ?_ (hts t).2.2
              intro _; rw [hph]; trivial
          · simp only [Option.some.injEq] at h
            subst h
            refine SysInv_update s t _ _ rfl rfl (fun u => rfl) hInv ?_ ?_ ?_
            · refine waitInv_carry s _ _ (hts t).1 rfl ?_ ?_
              · intro c; rw [hph]; simp
              · intro e; rw [hph]; simp
            · exact doneInv_ofNot _ (by intro r; simp)
            · exact sleptInv_opening100 (s.threads t) _ rfl rfl (by rw [hph]; trivial) (hts t).2.2
      | dialer =>
        simp only [stepTstep, hph, hk] at h
        split at h
        · simp only [Option.some.injEq] at h
          subst h
          refine SysInv_update s t _ _ rfl rfl (fun u => rfl) hInv ?_ ?_ ?_
          · exact waitInv_doneFail _ _ .ctxCanceled rfl
          · exact doneInv_of _ _ rfl resOK_cancelDialer
          · exact sleptInv_mk (s.threads t) _ rfl (by intro b hb; simp [phaseBackoff] at hb)
              (by intro hp; simp [preOpen] at hp) (hts t).2.2
        · simp only [Option.some.injEq] at h
          subst h
          refine SysInv_update s t _ _ rfl rfl (fun u => rfl) hInv ?_ ?_ ?_
          · refine waitInv_carry s _ _ (hts t).1 rfl ?_ ?_
            · intro c; rw [hph]; simp
            · intro e; rw [hph]; simp
          · exact doneInv_ofNot _ (by intro r; simp)
          · refine sleptInv_mk (s.threads t) _ rfl (by intro b hb; simp [phaseBackoff] at hb)
              ?_ (hts t).2.2
            intro _; rw [hph]; trivial
    | dLoop =>
      cases hk : (s.threads t).kind with
      | listener =>
        simp only [stepTstep, hph, hk] at h
        exact Option.noConfusion h
      | dialer =>
        simp only [stepTstep, hph, hk] at h
        split at h
        · simp only [Option.some.injEq] at h
          subst h
          refine SysInv_update s t _ _ rfl rfl (fun u => rfl) hInv ?_ ?_ ?_
          · exact waitInv_doneFail _ _ .errClosed rfl
          · exact doneInv_of _ _ rfl (resOK_errClosed _)
          · exact sleptInv_mk (s.threads t) _ rfl (by intro b hb; simp [phaseBackoff] at hb)
              (by intro hp; simp [preOpen] at hp) (hts t).2.2
        · split at h
          · rename_i ch hcc
            simp only [Option.some.injEq] at h
            subst h
            refine SysInv_update s t _ _ rfl rfl (fun u => rfl) hInv ?_ ?_ ?_
            · refine waitInv_toWaiting s _ _ ch (hts t).1 rfl rfl ?_ ?_
              · intro c; rw [hph]; simp
              · intro e; rw [hph]; simp
            · exact doneInv_ofNot _ (by intro r; simp)
            · refine sleptInv_mk (s.threads t) _ rfl (by intro b hb; simp [phaseBackoff] at hb)
                ?_ (hts t).2.2
              intro _; rw [hph]; trivial
          · simp only [Option.some.injEq] at h
            subst h
            refine SysInv_update s t _ _ rfl rfl (fun u => rfl) hInv ?_ ?_ ?_
            · refine waitInv_carry s _ _ (hts t).1 rfl ?_ ?_
              · intro c; rw [hph]; simp
              · intro e; rw [hph]; simp
            · exact doneInv_ofNot _ (by intro r; simp)
            · exact sleptInv_opening100 (s.threads t) _ rfl rfl (by rw [hph]; trivial) (hts t).2.2
    | waiting ch =>
      cases hk : (s.threads t).kind <;> simp only [stepTstep, hph, hk] at h <;>
        exact Option.noConfusion h
    | waitDone ch =>
      cases hk : (s.threads t).kind with
      | dialer =>
        simp only [stepTstep, hph, hk] at h
        exact Option.noConfusion h
      | listener =>
        simp only [stepTstep, hph, hk] at h
        split at h
        · simp only [Option.some.injEq] at h
          subst h
          refine SysInv_update s t _ _ rfl rfl (fun u => rfl) hInv ?_ ?_ ?_
          · exact waitInv_doneFail _ _ .errClosed rfl
          · exact doneInv_of _ _ rfl (resOK_errClosed _)
          · exact sleptInv_mk (s.threads t) _ rfl (by intro b hb; simp [phaseBackoff] at hb)
              (by intro hp; simp [preOpen] at hp) (hts t).2.2
        · simp only [Option.some.injEq] at h
          subst h
          refine SysInv_update s t _ _ rfl rfl (fun u => rfl) hInv ?_ ?_ ?_
          · refine waitInv_carry s _ _ (hts t).1 rfl ?_ ?_
            · intro c; rw [hph]; simp
            · intro e; rw [hph]; simp
          · exact doneInv_ofNot _ (by intro r; simp)
          · exact sleptInv_opening100 (s.threads t) _ rfl rfl (by rw [hph]; trivial) (hts t).2.2
    | opening b =>
      cases hk : (s.threads t).kind <;> simp only [stepTstep, hph, hk] at h <;>
        exact Option.noConfusion h
    | dFailCheck b =>
      cases hk : (s.threads t).kind with
      | listener =>
        simp only [stepTstep, hph, hk] at h
        exact Option.noConfusion h
      | dialer =>
        simp only [stepTstep, hph, hk] at h
        split at h
        · simp only [Option.some.injEq] at h
          subst h
          refine SysInv_update s t _ _ rfl rfl (fun u => rfl) hInv ?_ ?_ ?_
          · exact waitInv_doneFail _ _ .errClosed rfl
          · exact doneInv_of _ _ rfl (resOK_errClosed _)
          · exact sleptInv_mk (s.threads t) _ rfl (by intro b' hb'; simp [phaseBackoff] at hb')
              (by intro hp; simp [preOpen] at hp) (hts t).2.2
        · simp only [Option.some.injEq] at h
          subst h
          refine SysInv_update s t _ _ rfl rfl (fun u => rfl) hInv ?_ ?_ ?_
          · refine waitInv_carry s _ _ (hts t).1 rfl ?_ ?_
            · intro c; rw [hph]; simp
            · intro e; rw [hph]; simp
          · exact doneInv_ofNot _ (by intro r; simp)
          · refine sleptInv_mk (s.threads t) _ rfl ?_ (by intro hp; simp [preOpen] at hp) (hts t).2.2
            intro b' hb'
            rw [hph]
            simpa [phaseBackoff] using hb'
    | sleeping b =>
      cases hk : (s.threads t).kind <;> simp only [stepTstep, hph, hk] at h <;>
        exact Option.noConfusion h
    | opened b strm =>
      have harm : stepTstep s t =
          if s.gate.closed then
            some { setThread s t { s.threads t with phase := .done (.fail .errClosed) } with
                     streamsClosed := s.streamsClosed ++ [strm] }
          else
            some { setThread s t
                     { s.threads t with phase := .done (.conn s.wrappers.length) } with
                     gate := { s.gate with closedCh := some s.nextCh }
                     nextCh := s.nextCh + 1
                     wrappers := s.wrappers ++ [⟨s.nextCh, strm⟩] } := by
        cases hk : (s.threads t).kind <;> simp only [stepTstep, hph, hk]
      rw [harm] at h
      split at h
      · simp only [Option.some.injEq] at h
        subst h
        refine SysInv_update s t _ _ rfl rfl (fun u => rfl) hInv ?_ ?_ ?_
        · exact waitInv_doneFail _ _ .errClosed rfl
        · exact doneInv_of _ _ rfl (resOK_errClosed _)
        · exact sleptInv_mk (s.threads t) _ rfl (by intro b' hb'; simp [phaseBackoff] at hb')
            (by intro hp; simp [preOpen] at hp) (hts t).2.2
      · rename_i hnc
        simp only [Option.some.injEq] at h
        subst h
        refine SysInv_install s t _ _ ?_ rfl (fun u => rfl) hInv ?_ ?_ ?_
        · show s.gate.closed = false
          simpa using hnc
        · refine waitInv_carry s _ _ (hts t).1 rfl ?_ ?_
          · intro c; rw [hph]; simp
          · intro e; rw [hph]; simp
        · exact doneInv_of _ _ rfl (resOK_conn _ _)
        · exact sleptInv_mk (s.threads t) _ rfl (by intro b' hb'; simp [phaseBackoff] at hb')
            (by intro hp; simp [preOpen] at hp) (hts t).2.2
    | done r =>
      cases hk : (s.threads t).kind <;> simp only [stepTstep, hph, hk] at h <;>
        exact Option.noConfusion h
  | wake t =>
    simp only [step, stepWake] at h
    cases hph : (s.threads t).phase <;> simp only [hph] at h
    all_goals try exact Option.noConfusion h
    case waiting ch =>
      split at h
      · rename_i hsig
        cases hk : (s.threads t).kind <;> simp only [hk] at h <;>
          simp only [Option.some.injEq] at h <;> subst h <;>
          refine SysInv_update s t _ _ rfl rfl (fun u => rfl) hInv
            (waitInv_wake s _ _ ch (hts t).1 hph hsig rfl)
            (doneInv_ofNot _ (by intro r; simp))
            (sleptInv_mk (s.threads t) _ rfl (by intro b hb; simp [phaseBackoff] at hb)
              (by intro _; rw [hph]; trivial) (hts t).2.2)
      · exact Option.noConfusion h
  | cancelStep t =>
    simp only [step, stepCancel] at h
    split at h
    · rename_i hguard
      have hres : resOK (s.threads t).kind (.fail .ctxCanceled) := by
        rw [hguard.1]
        exact resOK_cancelDialer
      cases hph : (s.threads t).phase <;> simp only [hph] at h <;>
        first
        | exact Option.noConfusion h
        | (simp only [Option.some.injEq] at h
           subst h
           refine SysInv_update s t _ _ rfl rfl (fun u => rfl) hInv
             (waitInv_doneFail _ _ .ctxCanceled rfl)
             (doneInv_of _ _ rfl hres)
             (sleptInv_mk (s.threads t) _ rfl (by intro b hb; simp [phaseBackoff] at hb)
               (by intro hp; simp [preOpen] at hp) (hts t).2.2))
    · exact Option.noConfusion h
  | openAttempt t res =>
    simp only [step, stepOpen] at h
    cases hph : (s.threads t).phase <;> simp only [hph] at h
    all_goals try exact Option.noConfusion h
    case opening b =>
    cases hk : (s.threads t).kind with
    | dialer =>
      simp only [hk] at h
      split at h
      · simp only [Option.some.injEq] at h
        subst h
        refine SysInv_update s t _ _ rfl rfl (fun u => rfl) hInv
          (waitInv_doneFail _ _ .ctxCanceled rfl)
          (doneInv_of _ _ rfl resOK_cancelDialer)
          (sleptInv_mk (s.threads t) _ rfl (by intro b' hb'; simp [phaseBackoff] at hb')
            (by intro hp; simp [preOpen] at hp) (hts t).2.2)
      · split at h
        · simp only [Option.some.injEq] at h
          subst h
          refine SysInv_update s t _ _ rfl rfl (fun u => rfl) hInv ?_ ?_ ?_
          · refine waitInv_carry s _ _ (hts t).1 rfl ?_ ?_
            · intro c; rw [hph]; simp
            · intro e; rw [hph]; simp
          · exact doneInv_ofNot _ (by intro r; simp)
          · refine sleptInv_mk (s.threads t) _ rfl ?_ (by intro hp; simp [preOpen] at hp)
              (hts t).2.2
            intro b' hb'
            rw [hph]
            simpa [phaseBackoff] using hb'
        · simp only [Option.some.injEq] at h
          subst h
          refine SysInv_update s t _ _ rfl rfl (fun u => rfl) hInv ?_ ?_ ?_
          · refine waitInv_carry s _ _ (hts t).1 rfl ?_ ?_
            · intro c; rw [hph]; simp
            · intro e'; rw [hph]; simp
          · exact doneInv_ofNot _ (by intro r; simp)
          · refine sleptInv_mk (s.threads t) _ rfl ?_ (by intro hp; simp [preOpen] at hp)
              (hts t).2.2
            intro b' hb'
            rw [hph]
            simpa [phaseBackoff] using hb'
    | listener =>
      simp only [hk] at h
      split at h
      · simp only [Option.some.injEq] at h
        subst h
        refine SysInv_update s t _ _ rfl rfl (fun u => rfl) hInv ?_ ?_ ?_
        · refine waitInv_carry s _ _ (hts t).1 rfl ?_ ?_
          · intro c; rw [hph]; simp
          · intro e; rw [hph]; simp
        · exact doneInv_ofNot _ (by intro r; simp)
        · refine sleptInv_mk (s.threads t) _ rfl ?_ (by intro hp; simp [preOpen] at hp)
            (hts t).2.2
          intro b' hb'
          rw [hph]
          simpa [phaseBackoff] using hb'
      · split at h
        · simp only [Option.some.injEq] at h
          subst h
          refine SysInv_update s t _ _ rfl rfl (fun u => rfl) hInv
            (waitInv_doneFail _ _ .errClosed rfl)
            (doneInv_of _ _ rfl (resOK_errClosed _))
            (sleptInv_mk (s.threads t) _ rfl (by intro b' hb'; simp [phaseBackoff] at hb')
              (by intro hp; simp [preOpen] at hp) (hts t).2.2)
        · simp only [Option.some.injEq] at h
          subst h
          refine SysInv_update s t _ _ rfl rfl (fun u => rfl) hInv ?_ ?_ ?_
          · refine waitInv_carry s _ _ (hts t).1 rfl ?_ ?_
            · intro c; rw [hph]; simp
            · intro e'; rw [hph]; simp
          · exact doneInv_ofNot _ (by intro r; simp)
          · refine sleptInv_mk (s.threads t) _ rfl ?_ (by intro hp; simp [preOpen] at hp)
              (hts t).2.2
            intro b' hb'
            rw [hph]
            simpa [phaseBackoff] using hb'
  | timerFire t =>
    simp only [step, stepTimer] at h
    cases hph : (s.threads t).phase <;> simp only [hph] at h
    all_goals try exact Option.noConfusion h
    case sleeping b =>
    simp only [Option.some.injEq] at h
    subst h
    refine SysInv_update s t _ _ rfl rfl (fun u => rfl) hInv ?_ ?_ ?_
    · refine waitInv_carry s _ _ (hts t).1 rfl ?_ ?_
      · intro c; rw [hph]; simp
      · intro e; rw [hph]; simp
    · exact doneInv_ofNot _ (by intro r; simp)
    · exact sleptInv_timer (s.threads t) _ b hph rfl rfl (hts t).2.2
  | gateClose =>
    simp only [step, stepGateClose] at h
    split at h
    · exact Option.noConfusion h
    · rename_i g sg e heq
      simp only [Option.some.injEq] at h
      subst h
      obtain ⟨g', sg', heq', hcl, hch, hsub, hact, _, _⟩ := gateCloseFn_spec s.gate s.sig
      rw [heq'] at heq
      injection heq with heq
      injection heq with h1 h2
      injection h2 with h2 _
      subst h1
      subst h2
      refine ⟨?_, fun u => ?_⟩
      · intro _ ch hchm
        rw [hch] at hchm
        exact hact ch hchm
      · obtain ⟨w, d, sl⟩ := hts u
        exact ⟨waitInv_mono s _ hsub _ w, d, sl⟩
  | wrapperClose w =>
    simp only [step, stepWrapperClose] at h
    split at h
    · split at h
      · exact Option.noConfusion h
      · rename_i g sg heq
        simp only [Option.some.injEq] at h
        subst h
        rcases onCloseFn_spec _ _ _ _ heq with ⟨hnone, rfl, rfl⟩ | ⟨ch, hch, hmem, rfl, rfl⟩
        · refine ⟨?_, fun u => ?_⟩
          · intro hc ch hchm
            exact hInv.1 hc ch hchm
          · obtain ⟨wv, d, sl⟩ := hts u
            exact ⟨waitInv_mono s _ (fun x hx => hx) _ wv, d, sl⟩
        · refine ⟨?_, fun u => ?_⟩
          · intro hc ch' hchm
            exact Option.noConfusion hchm
          · obtain ⟨wv, d, sl⟩ := hts u
            exact ⟨waitInv_mono s _ (fun x hx => List.mem_cons_of_mem _ hx) _ wv, d, sl⟩
    · exact Option.noConfusion h
  | cancelCtx t =>
    simp only [step, stepCancelCtx, Option.some.injEq] at h
    subst h
    exact SysInv_update s t _ _ rfl rfl (fun u => rfl) hInv (hts t).1 (hts t).2.1 (hts t).2.2

/-- The initial state satisfies all invariants. -/
theorem SysInv_init (kinds : Nat → CallKind) : SysInv (initSys kinds) := by
  refine ⟨?_, fun t => ?_⟩
  · intro hc
    exact absurd hc (by simp [initSys])
  · refine ⟨?_, ?_, ?_, ?_, ?_⟩
    · intro ch hch
      simp [initSys, initThread] at hch
    · intro r hr
      simp [initSys, initThread] at hr
    · rfl
    · intro b hb
      simp [initSys, initThread, phaseBackoff] at hb
    · intro _
      rfl

/-- The invariants hold along every run. -/
theorem SysInv_run (tr : List Label) (s₀ s : Sys) (h : run s₀ tr = some s)
    (hInv : SysInv s₀) : SysInv s := by
  induction tr generalizing s₀ with
  | nil =>
    simp only [run, Option.some.injEq] at h
    exact h ▸ hInv
  | cons l ls ih =>
    simp only [run] at h
    cases hst : step s₀ l with
    | none => rw [hst] at h; exact Option.noConfusion h
    | some s₁ =>
      rw [hst] at h
      exact ih s₁ h (SysInv_step s₀ s₁ l hst hInv)

/-- The invariants hold in every reachable state. -/
theorem SysInv_reach (kinds : Nat → CallKind) (tr : List Label) (s : Sys)
    (h : run (initSys kinds) tr = some s) : SysInv s :=
  SysInv_run tr _ s h (SysInv_init kinds)

/-- The only step that installs a new slot in `closedCh` is the atomic
post-open section of some call: it requires the gate to be open, uses a
fresh channel, and in the very same step records the wrapper and returns
it to the caller. -/
theorem step_installs (s s' : Sys) (l : Label) (h : step s l = some s')
    (ch : ChanId) (hch : s'.gate.closedCh = some ch) (hne : s.gate.closedCh ≠ some ch) :
    ∃ t b strm, l = .tstep t ∧ (s.threads t).phase = .opened b strm ∧
      ch = s.nextCh ∧ s.gate.closed = false ∧
      (s'.threads t).phase = .done (.conn s.wrappers.length) ∧
      s'.wrappers = s.wrappers ++ [⟨ch, strm⟩] := by
  cases l with
  | tstep t =>
    simp only [step] at h
    cases hph : (s.threads t).phase
    case opened b strm =>
      have harm : stepTstep s t =
          if s.gate.closed then
            some { setThread s t { s.threads t with phase := .done (.fail .errClosed) } with
                     streamsClosed := s.streamsClosed ++ [strm] }
          else
            some { setThread s t
                     { s.threads t with phase := .done (.conn s.wrappers.length) } with
                     gate := { s.gate with closedCh := some s.nextCh }
                     nextCh := s.nextCh + 1
                     wrappers := s.wrappers ++ [⟨s.nextCh, strm⟩] } := by
        cases hk : (s.threads t).kind <;> simp only [stepTstep, hph, hk]
      rw [harm] at h
      split at h
      · simp only [Option.some.injEq] at h
        subst h
        exact absurd hch hne
      · rename_i hnc
        simp only [Option.some.injEq] at h
        subst h
        have hcc : some s.nextCh = some ch := hch
        injection hcc with hcc
        subst hcc
        exact ⟨t, b, strm, rfl, hph, rfl, by simpa using hnc, by simp, rfl⟩
    all_goals cases hk : (s.threads t).kind <;> simp only [stepTstep, hph, hk] at h
    all_goals try exact Option.noConfusion h
    all_goals repeat' split at h
    all_goals first
      | exact Option.noConfusion h
      | (simp only [Option.some.injEq] at h; subst h; exact absurd hch hne)
  | wake t =>
    simp only [step, stepWake] at h
    repeat' split at h
    all_goals first
      | exact Option.noConfusion h
      | (simp only [Option.some.injEq] at h; subst h; exact absurd hch hne)
  | cancelStep t =>
    simp only [step, stepCancel] at h
    repeat' split at h
    all_goals first
      | exact Option.noConfusion h
      | (simp only [Option.some.injEq] at h; subst h; exact absurd hch hne)
  | openAttempt t res =>
    simp only [step, stepOpen] at h
    repeat' split at h
    all_goals first
      | exact Option.noConfusion h
      | (simp only [Option.some.injEq] at h; subst h; exact absurd hch hne)
  | timerFire t =>
    simp only [step, stepTimer] at h
    repeat' split at h
    all_goals first
      | exact Option.noConfusion h
      | (simp only [Option.some.injEq] at h; subst h; exact absurd hch hne)
  | gateClose =>
    simp only [step, stepGateClose] at h
    split at h
    · exact Option.noConfusion h
    · rename_i g sg e heq
      simp only [Option.some.injEq] at h
      subst h
      obtain ⟨g', sg', heq', _, hchEq, _, _, _, _⟩ := gateCloseFn_spec s.gate s.sig
      rw [heq'] at heq
      injection heq with heq
      injection heq with h1 h2
      subst h1
      rw [hchEq] at hch
      exact absurd hch hne
  | wrapperClose w =>
    simp only [step, stepWrapperClose] at h
    split at h
    · split at h
      · exact Option.noConfusion h
      · rename_i g sg heq
        simp only [Option.some.injEq] at h
        subst h
        rcases onCloseFn_spec _ _ _ _ heq with ⟨_, rfl, rfl⟩ | ⟨c, _, _, rfl, rfl⟩
        · exact absurd hch hne
        · exact Option.noConfusion hch
    · exact Option.noConfusion h
  | cancelCtx t =>
    simp only [step, stepCancelCtx, Option.some.injEq] at h
    subst h
    exact absurd hch hne

/-- Closed form of the backoff sequence actually produced by the loop:
it doubles while strictly below two seconds, so it tops out at 3.2
seconds, not at 2 seconds. -/
theorem backoffAt_eq (i : Nat) : backoffAt i = min (100 * 2 ^ i) 3200 := by
  induction i with
  | zero => decide
  | succ n ih =>
    have hstep : backoffAt (n + 1) = backoffAfter (backoffAt n) := rfl
    rw [hstep, ih]
    have hp : 2 ^ (n + 1) = 2 ^ n * 2 := pow_succ 2 n
    rcases le_or_lt n 4 with hn | hn
    · have h2 : 2 ^ n ≤ 16 := by
        calc 2 ^ n ≤ 2 ^ 4 := Nat.pow_le_pow_right (by norm_num) hn
        _ = 16 := by norm_num
      simp only [backoffAfter]
      split
      · omega
      · omega
    · have h2 : 32 ≤ 2 ^ n := by
        calc (32 : Nat) = 2 ^ 5 := by norm_num
        _ ≤ 2 ^ n := Nat.pow_le_pow_right (by norm_num) hn
      simp only [backoffAfter]
      split
      · omega
      · omega

/-- Closed form of the total backoff for `n` failures. -/
theorem totalBackoff_eq (n : Nat) :
    totalBackoff n = ((List.range n).map (fun i => min (100 * 2 ^ i) 3200)).sum := by
  have hfun : backoffAt = fun i => min (100 * 2 ^ i) 3200 := funext backoffAt_eq
  rw [totalBackoff, hfun]

/-! ## Concrete fixtures used by the claim theorems -/

/-- A population of listener (`Accept`) calls. -/
def ksListener : Nat → CallKind := fun _ => CallKind.listener

/-- A population of dialer (`DialContext`) calls. -/
def ksDialer : Nat → CallKind := fun _ => CallKind.dialer

/-- Schedule in which call 0 becomes the opener and its open operation
fails six times (each backoff sleep completing) before we stop. -/
def backoffTrace : List Label :=
  [.tstep 0,
   .openAttempt 0 (some 0), .timerFire 0,
   .openAttempt 0 (some 0), .timerFire 0,
   .openAttempt 0 (some 0), .timerFire 0,
   .openAttempt 0 (some 0), .timerFire 0,
   .openAttempt 0 (some 0), .timerFire 0,
   .openAttempt 0 (some 0), .timerFire 0]

/-- Schedule: call 0 is admitted (wrapper 0, channel 0), its wrapper is
closed once, then call 1 is admitted (wrapper 1, channel 1). -/
def doubleCloseSetup : List Label :=
  [.tstep 0, .openAttempt 0 none, .tstep 0, .wrapperClose 0,
   .tstep 1, .openAttempt 1 none, .tstep 1]

/-- The same schedule followed by a second `Close` of wrapper 0. -/
def doubleCloseTrace : List Label := doubleCloseSetup ++ [.wrapperClose 0]

/-- C2 (counterexample): the claim's backoff formula is wrong on the code.
On the schedule where the open operation fails six times, the completed
backoff sleeps of the opener are 100, 200, 400, 800, 1600, 3200 ms: the
sixth sleep is 3.2 s, which exceeds the claimed 2-second cap (the code
doubles 1600 to 3200 because 1600 is still below 2000 before doubling),
and the total waited differs from the claimed sum of
min(100·2^i, 2000). -/
theorem turnstile_C2_backoff_cap_counterexample :
    ((run (initSys ksListener) backoffTrace).map fun s => (s.threads 0).slept) =
      some [100, 200, 400, 800, 1600, 3200] ∧
    ¬ (3200 : Nat) ≤ 2000 ∧
    (3200 : Nat) ≠ min (100 * 2 ^ 5) 2000 ∧
    ([100, 200, 400, 800, 1600, 3200] : List Nat).sum ≠
      ((List.range 6).map fun i => min (100 * 2 ^ i) 2000).sum := by
  refine ⟨by decide, by decide, by decide, by decide⟩

/-- C3 (behavior at the failing input): a wrapper's `Close` signals the
gate's *current* slot, not its own.  After wrapper 0 (channel 0) is
closed and wrapper 1 (channel 1) has been admitted, a second `Close` of
wrapper 0 closes channel 1 and clears the slot — the slot of the later,
still-open connection (stream 1 is never closed) — while closing wrapper
0's underlying stream a second time.  The claim that a later `Close` is a
no-op on gate state is false on the code. -/
theorem turnstile_C3_second_close_signals_later_slot :
    ((run (initSys ksListener) doubleCloseSetup).map fun s =>
        (s.gate.closedCh, s.sig, s.wrappers, s.streamsClosed)) =
      some (some 1, [0], [⟨0, 0⟩, ⟨1, 1⟩], [0]) ∧
    ((run (initSys ksListener) doubleCloseTrace).map fun s =>
        (s.gate.closedCh, s.sig, s.wrappers, s.streamsClosed)) =
      some (none, [1, 0], [⟨0, 0⟩, ⟨1, 1⟩], [0, 0]) := by
  refine ⟨by decide, by decide⟩

/-- C2 (amended): in the open-retry loop of both `Accept` and
`DialContext`, the backoff starts at 100 ms and doubles after each failed
attempt for as long as it is still below 2 seconds before doubling, so
the sequence of sleeps is min(100·2^i, 3200) ms — it tops out at 3.2
seconds, one doubling past 2 s — and an open operation that fails N
times waits a total of the sum of min(100·2^i, 3200) for i in [0, N-1].
In every reachable state, the sleeps a call has completed are exactly the
prefix of this sequence, and the backoff its retry loop will use next is
the next element. -/
theorem turnstile_C2_backoff_amended (kinds : Nat → CallKind) (tr : List Label) (s : Sys)
    (h : run (initSys kinds) tr = some s) :
    (∀ i, backoffAt i = min (100 * 2 ^ i) 3200) ∧
    (∀ n, totalBackoff n = ((List.range n).map fun i => min (100 * 2 ^ i) 3200).sum) ∧
    (∀ t, (s.threads t).slept =
        (List.range (s.threads t).slept.length).map backoffAt ∧
      ∀ b, phaseBackoff (s.threads t).phase = some b →
        b = backoffAt (s.threads t).slept.length) := by
  have hInv := SysInv_reach kinds tr s h
  refine ⟨backoffAt_eq, totalBackoff_eq, fun t => ?_⟩
  obtain ⟨h1, h2, _⟩ := (hInv.2 t).2.2
  exact ⟨h1, h2⟩

/-- Witness for C2's amended theorem at the six-failure schedule. -/
theorem turnstile_C2_backoff_amended_witness :
    backoffAt 5 = min (100 * 2 ^ 5) 3200 ∧
    totalBackoff 6 = ((List.range 6).map fun i => min (100 * 2 ^ i) 3200).sum := by
  have hs : (run (initSys ksListener) backoffTrace).isSome = true := by decide
  obtain ⟨h1, h2, h3⟩ :=
    turnstile_C2_backoff_amended ksListener backoffTrace
      ((run (initSys ksListener) backoffTrace).get hs) (Option.some_get hs).symm
  exact ⟨h1 5, h2 6⟩

/-- C1: for every schedule of `Accept`/`DialContext` calls on one gate,
(i) the gate holds at most one active slot at a time (`closedCh` is a
single nullable field), (ii) a call that observed an existing slot — and
therefore blocked on its channel — returns a connection only once every
channel it blocked on has been closed, and (iii) the only step that
creates a new slot is the atomic locked section that immediately returns
the new wrapper to its caller, using a fresh channel, with the gate still
open. -/
theorem turnstile_C1_single_active_slot (kinds : Nat → CallKind) (tr : List Label) (s : Sys)
    (h : run (initSys kinds) tr = some s) :
    (∀ c₁ c₂, s.gate.closedCh = some c₁ → s.gate.closedCh = some c₂ → c₁ = c₂) ∧
    (∀ t w, (s.threads t).phase = .done (.conn w) →
      ∀ ch ∈ (s.threads t).waitedOn, ch ∈ s.sig) ∧
    (∀ l s' ch, step s l = some s' → s'.gate.closedCh = some ch →
      s.gate.closedCh ≠ some ch →
      ∃ t b strm, l = .tstep t ∧ (s.threads t).phase = .opened b strm ∧
        ch = s.nextCh ∧ s.gate.closed = false ∧
        (s'.threads t).phase = .done (.conn s.wrappers.length) ∧
        s'.wrappers = s.wrappers ++ [⟨ch, strm⟩]) := by
  have hInv := SysInv_reach kinds tr s h
  refine ⟨?_, ?_, ?_⟩
  · intro c₁ c₂ h1 h2
    rw [h1] at h2
    injection h2
  · intro t w hph ch hch
    rcases (hInv.2 t).1 ch hch with ha | hb | ⟨e, he⟩
    · have := hph.symm.trans ha
      simp at this
    · exact hb
    · have := hph.symm.trans he
      simp at this
  · intro l s' ch hst hch hne
    exact step_installs s s' l hst ch hch hne

/-- The double-admission schedule runs to completion. -/
theorem doubleCloseSetup_isSome :
    (run (initSys ksListener) doubleCloseSetup).isSome = true := by decide

/-- State reached by the double-admission schedule. -/
def doubleCloseState : Sys :=
  (run (initSys ksListener) doubleCloseSetup).get doubleCloseSetup_isSome

/-- Witness for C1 at the double-admission schedule: after wrapper 0 is
closed and wrapper 1 admitted, call 0 finished with a connection and
every channel it blocked on (none) is trivially signaled; slot uniqueness
holds at the concrete state. -/
theorem turnstile_C1_single_active_slot_witness :
    (∀ c₁ c₂, doubleCloseState.gate.closedCh = some c₁ →
      doubleCloseState.gate.closedCh = some c₂ → c₁ = c₂) ∧
    (∀ ch ∈ (doubleCloseState.threads 0).waitedOn, ch ∈ doubleCloseState.sig) := by
  obtain ⟨h1, h2, h3⟩ :=
    turnstile_C1_single_active_slot ksListener doubleCloseSetup
      doubleCloseState (Option.some_get doubleCloseSetup_isSome).symm
  exact ⟨h1, h2 0 0 (by decide)⟩

/-- C5: in every reachable state, every finished `Accept`/`DialContext`
call ended in exactly one of three ways: a connection wrapper, the
gate-closed error, or (dialer only) the caller's cancellation error; an
error value produced by the open operation is never the call's returned
error. -/
theorem turnstile_C5_terminal_outcomes (kinds : Nat → CallKind) (tr : List Label) (s : Sys)
    (h : run (initSys kinds) tr = some s) :
    ∀ t r, (s.threads t).phase = .done r →
      (r = .fail .errClosed ∨ r = .fail .ctxCanceled ∨ ∃ w, r = .conn w) ∧
      (∀ e, r ≠ .fail (.openErr e)) ∧
      ((s.threads t).kind = .listener → r ≠ .fail .ctxCanceled) := by
  have hInv := SysInv_reach kinds tr s h
  intro t r hr
  have hres := (hInv.2 t).2.1 r hr
  refine ⟨?_, hres.1, hres.2⟩
  cases r with
  | conn w => exact Or.inr (Or.inr ⟨w, rfl⟩)
  | fail e =>
    cases e with
    | errClosed => exact Or.inl rfl
    | ctxCanceled => exact Or.inr (Or.inl rfl)
    | openErr c => exact absurd rfl (hres.1 c)

/-- Witness for C5: call 0 of the double-admission schedule finished with
connection 0, an admissible outcome. -/
theorem turnstile_C5_terminal_outcomes_witness :
    (Result.conn 0 = .fail .errClosed ∨ Result.conn 0 = .fail .ctxCanceled ∨
      ∃ w, Result.conn 0 = .conn w) ∧
    (∀ e, Result.conn 0 ≠ .fail (.openErr e)) := by
  obtain ⟨h1, h2, h3⟩ :=
    turnstile_C5_terminal_outcomes ksListener doubleCloseSetup
      doubleCloseState (Option.some_get doubleCloseSetup_isSome).symm
      0 (.conn 0) (by decide)
  exact ⟨h1, h2⟩

/-- C4: once the gate's `Close` has run (so `closed` is set in a
reachable state), every subsequent call fails with the gate-closed error
without invoking the open operation: a fresh listener call fails in its
first locked section, a fresh dialer call whose context is live passes
its fast-fail check and then fails in its first locked section, no call
whose retry loop is not already running can perform an open attempt, the
gate's active slot (if any) is signaled so every call blocked on it can
complete its receive, and the re-check a woken call performs then yields
the gate-closed error (listener directly, dialer via its loop
re-check). -/
theorem turnstile_C4_gate_closed_terminal (kinds : Nat → CallKind) (tr : List Label)
    (s : Sys) (h : run (initSys kinds) tr = some s) (hc : s.gate.closed = true) :
    (∀ t, (s.threads t).kind = .listener → (s.threads t).phase = .entry →
      stepTstep s t =
        some (setThread s t { s.threads t with phase := .done (.fail .errClosed) })) ∧
    (∀ t, (s.threads t).kind = .dialer → (s.threads t).phase = .entry →
      (s.threads t).ctxCancelled = false →
      stepTstep s t = some (setThread s t { s.threads t with phase := .dLoop })) ∧
    (∀ t, (s.threads t).kind = .dialer → (s.threads t).phase = .dLoop →
      stepTstep s t =
        some (setThread s t { s.threads t with phase := .done (.fail .errClosed) })) ∧
    (∀ t res, (∀ b, (s.threads t).phase ≠ .opening b) → stepOpen s t res = none) ∧
    (∀ ch, s.gate.closedCh = some ch → ch ∈ s.sig) ∧
    (∀ t ch, (s.threads t).phase = .waiting ch → s.gate.closedCh = some ch →
      (s.threads t).kind = .listener →
      stepWake s t = some (setThread s t { s.threads t with phase := .waitDone ch })) ∧
    (∀ t ch, (s.threads t).phase = .waiting ch → s.gate.closedCh = some ch →
      (s.threads t).kind = .dialer →
      stepWake s t = some (setThread s t { s.threads t with phase := .dLoop })) ∧
    (∀ t ch, (s.threads t).kind = .listener → (s.threads t).phase = .waitDone ch →
      stepTstep s t =
        some (setThread s t { s.threads t with phase := .done (.fail .errClosed) })) := by
  have hInv := SysInv_reach kinds tr s h
  refine ⟨?_, ?_, ?_, ?_, ?_, ?_, ?_, ?_⟩
  · intro t hk hph
    simp [stepTstep, hph, hk, hc]
  · intro t hk hph hcx
    simp [stepTstep, hph, hk, hcx]
  · intro t hk hph
    simp [stepTstep, hph, hk, hc]
  · intro t res hop
    cases hph : (s.threads t).phase <;> simp [stepOpen, hph]
    case opening b => exact absurd hph (hop b)
  · exact hInv.1 hc
  · intro t ch hph hcc hk
    have hsig : ch ∈ s.sig := hInv.1 hc ch hcc
    simp [stepWake, hph, hk, hsig]
  · intro t ch hph hcc hk
    have hsig : ch ∈ s.sig := hInv.1 hc ch hcc
    simp [stepWake, hph, hk, hsig]
  · intro t ch hk hph
    simp [stepTstep, hph, hk, hc]

/-- Closing a fresh gate runs to completion. -/
theorem closeOnlyTrace_isSome :
    (run (initSys ksListener) [Label.gateClose]).isSome = true := by decide

/-- A fresh gate that has been closed without ever opening a connection. -/
def closedFreshState : Sys :=
  (run (initSys ksListener) [Label.gateClose]).get closeOnlyTrace_isSome

/-- Witness for C4 on a gate that was closed before any connection was
ever opened: the pending fresh `Accept` call fails with the gate-closed
error in its first step, and no open attempt is possible for it. -/
theorem turnstile_C4_gate_closed_terminal_witness :
    stepTstep closedFreshState 0 =
      some (setThread closedFreshState 0
        { closedFreshState.threads 0 with phase := .done (.fail .errClosed) }) ∧
    stepOpen closedFreshState 0 none = none := by
  obtain ⟨h1, _, _, h4, _, _, _, _⟩ :=
    turnstile_C4_gate_closed_terminal ksListener [Label.gateClose]
      closedFreshState (Option.some_get closeOnlyTrace_isSome).symm (by decide)
  refine ⟨h1 0 (by decide) (by decide), h4 0 none ?_⟩
  intro b hb
  have hent : (closedFreshState.threads 0).phase = Phase.entry := by decide
  rw [hent] at hb
  exact Phase.noConfusion hb

/-- Schedule (dialer gate): call 0 is admitted (wrapper 0, channel 0);
call 1 starts waiting on channel 0; call 1's context is cancelled. -/
def cancelWaitSetup : List Label :=
  [.tstep 0, .tstep 0, .openAttempt 0 none, .tstep 0, .tstep 1, .tstep 1, .cancelCtx 1]

/-- The same schedule followed by call 1 taking the cancellation arm,
wrapper 0 closing, and call 2 being admitted. -/
def cancelRecoverTrace : List Label :=
  cancelWaitSetup ++ [.cancelStep 1, .wrapperClose 0, .tstep 2, .tstep 2,
    .openAttempt 2 none, .tstep 2]

/-- The cancellation setup runs to completion. -/
theorem cancelWaitSetup_isSome :
    (run (initSys ksDialer) cancelWaitSetup).isSome = true := by decide

/-- State with wrapper 0 active and call 1 cancelled while blocked on it. -/
def cancelWaitState : Sys :=
  (run (initSys ksDialer) cancelWaitSetup).get cancelWaitSetup_isSome

/-- C6: a `DialContext` call whose context is cancelled while it waits on
a still-active previous connection returns the cancellation error by a
step that changes nothing but that call's own state — the gate's `closed`
flag, its active slot, the signaled set, the wrappers and the stream
closes are all untouched, and every other call is untouched.  On the
concrete schedule, after call 1 is cancelled the slot of wrapper 0 is
still claimed and the gate still open, and once wrapper 0 closes, the
later uncancelled call 2 is admitted with a fresh connection. -/
theorem turnstile_C6_cancel_noninterference (s : Sys) (t : Nat) (ch : ChanId)
    (hk : (s.threads t).kind = .dialer) (hcx : (s.threads t).ctxCancelled = true)
    (hph : (s.threads t).phase = .waiting ch) :
    (stepCancel s t =
      some (setThread s t { s.threads t with phase := .done (.fail .ctxCanceled) })) ∧
    (setThread s t { s.threads t with phase := .done (.fail .ctxCanceled) }).gate = s.gate ∧
    (setThread s t { s.threads t with phase := .done (.fail .ctxCanceled) }).sig = s.sig ∧
    (setThread s t { s.threads t with phase := .done (.fail .ctxCanceled) }).wrappers =
      s.wrappers ∧
    (setThread s t { s.threads t with phase := .done (.fail .ctxCanceled) }).streamsClosed =
      s.streamsClosed ∧
    (∀ u, u ≠ t →
      (setThread s t { s.threads t with phase := .done (.fail .ctxCanceled) }).threads u =
        s.threads u) ∧
    ((run (initSys ksDialer) cancelRecoverTrace).map fun s' =>
        ((s'.threads 1).phase, (s'.threads 2).phase)) =
      some (.done (.fail .ctxCanceled), .done (.conn 1)) := by
  refine ⟨?_, rfl, rfl, rfl, rfl, ?_, by decide⟩
  · simp [stepCancel, hph, hk, hcx]
  · intro u hu
    simp [setThread, hu]

/-- Witness for C6 at the concrete cancelled-waiter state. -/
theorem turnstile_C6_cancel_noninterference_witness :
    (stepCancel cancelWaitState 1 =
      some (setThread cancelWaitState 1
        { cancelWaitState.threads 1 with phase := .done (.fail .ctxCanceled) })) ∧
    (setThread cancelWaitState 1
      { cancelWaitState.threads 1 with
        phase := .done (.fail .ctxCanceled) }).gate = cancelWaitState.gate := by
  obtain ⟨h1, h2, _⟩ :=
    turnstile_C6_cancel_noninterference cancelWaitState 1 0 (by decide) (by decide) (by decide)
  exact ⟨h1, h2⟩

/-- C7: the gate's `Close` — identical in the listener and the dialer —
always returns a nil error and never hits the run-time error of closing
an already-closed channel; the first call sets `closed` and signals the
active slot's channel exactly when one is active and unsignaled, and
running `Close` again on the resulting state changes nothing. -/
theorem turnstile_C7_close_idempotent (g : Gate) (sg : List ChanId) :
    ∃ g' sg', gateCloseFn g sg = some (g', sg', none) ∧
      g'.closed = true ∧ g'.closedCh = g.closedCh ∧
      gateCloseFn g' sg' = some (g', sg', none) ∧
      (∀ ch, g.closedCh = some ch → ch ∈ sg') ∧
      (∀ ch, g.closedCh = some ch → ch ∉ sg → sg' = ch :: sg) ∧
      (∀ ch, g.closedCh = some ch → ch ∈ sg → sg' = sg) ∧
      (g.closedCh = none → sg' = sg) := by
  rcases g with ⟨c, ch?⟩
  cases ch? with
  | none =>
    refine ⟨⟨true, none⟩, sg, by simp [gateCloseFn], rfl, rfl, by simp [gateCloseFn],
      ?_, ?_, ?_, fun _ => rfl⟩
    · intro ch hch; exact Option.noConfusion hch
    · intro ch hch; exact absurd hch (by simp)
    · intro ch hch; exact absurd hch (by simp)
  | some ch =>
    by_cases hmem : ch ∈ sg
    · refine ⟨⟨true, some ch⟩, sg, by simp [gateCloseFn, hmem], rfl, rfl,
        by simp [gateCloseFn, hmem], ?_, ?_, ?_, ?_⟩
      · intro ch' hch'
        injection hch' with e
        exact e ▸ hmem
      · intro ch' hch' hnot
        injection hch' with e
        exact absurd (e ▸ hmem) hnot
      · intro ch' hch' _
        rfl
      · intro hnone
        exact Option.noConfusion hnone
    · refine ⟨⟨true, some ch⟩, ch :: sg, by simp [gateCloseFn, hmem, chanClose], rfl, rfl,
        by simp [gateCloseFn], ?_, ?_, ?_, ?_⟩
      · intro ch' hch'
        injection hch' with e
        exact e ▸ List.mem_cons_self ch sg
      · intro ch' hch' _
        injection hch' with e
        rw [e]
      · intro ch' hch' hin
        injection hch' with e
        exact absurd (e ▸ hin) hmem
      · intro hnone
        exact Option.noConfusion hnone

/-- Witness for C7 on a gate with an unsignaled active slot. -/
theorem turnstile_C7_close_idempotent_witness :
    ∃ g' sg', gateCloseFn ⟨false, some 3⟩ [] = some (g', sg', none) ∧
      g'.closed = true ∧ g'.closedCh = some 3 ∧
      gateCloseFn g' sg' = some (g', sg', none) ∧ sg' = [3] := by
  obtain ⟨g', sg', h1, h2, h3, h4, _, h6, _, _⟩ :=
    turnstile_C7_close_idempotent ⟨false, some 3⟩ []
  exact ⟨g', sg', h1, h2, h3, h4, h6 3 rfl (by simp)⟩

/-- C8: the three deadline setters of the connection wrapper accept any
time value and return a nil error while leaving the wrapper unchanged,
so reads and writes after setting any deadline behave exactly as before:
the wrapper layer can impose no timeout. -/
theorem turnstile_C8_deadline_noop (c : rwConn) (t : Int) :
    c.SetDeadline t = (c, none) ∧
    c.SetReadDeadline t = (c, none) ∧
    c.SetWriteDeadline t = (c, none) ∧
    (∀ f, rwConn.Read (c.SetDeadline t).1 f = rwConn.Read c f) ∧
    (∀ f, rwConn.Read (c.SetReadDeadline t).1 f = rwConn.Read c f) ∧
    (∀ f, rwConn.Read (c.SetWriteDeadline t).1 f = rwConn.Read c f) ∧
    (∀ f, rwConn.Write (c.SetDeadline t).1 f = rwConn.Write c f) ∧
    (∀ f, rwConn.Write (c.SetReadDeadline t).1 f = rwConn.Write c f) ∧
    (∀ f, rwConn.Write (c.SetWriteDeadline t).1 f = rwConn.Write c f) :=
  ⟨rfl, rfl, rfl, fun _ => rfl, fun _ => rfl, fun _ => rfl,
    fun _ => rfl, fun _ => rfl, fun _ => rfl⟩

/-- Witness for C8 at a concrete wrapper and a deadline in the past. -/
theorem turnstile_C8_deadline_noop_witness :
    rwConn.SetDeadline ⟨7, "dev", "peer"⟩ (-1000) = (⟨7, "dev", "peer"⟩, none) ∧
    rwConn.SetReadDeadline ⟨7, "dev", "peer"⟩ (-1000) = (⟨7, "dev", "peer"⟩, none) :=
  ⟨(turnstile_C8_deadline_noop ⟨7, "dev", "peer"⟩ (-1000)).1,
    (turnstile_C8_deadline_noop ⟨7, "dev", "peer"⟩ (-1000)).2.1⟩

/-- C9: in the post-open locked section, if the gate has been observed
closed, the call closes the freshly opened stream, installs no slot
(the gate, including its slot field, and the wrapper list are unchanged)
and fails with the gate-closed error; only when the gate is still open
does it install a fresh channel as the active slot, record the wrapper
and return it. -/
theorem turnstile_C9_late_close_discards_stream (s : Sys) (t : Nat) (b strm : Nat)
    (hph : (s.threads t).phase = .opened b strm) :
    (s.gate.closed = true →
      stepTstep s t =
        some { setThread s t { s.threads t with phase := .done (.fail .errClosed) } with
                 streamsClosed := s.streamsClosed ++ [strm] } ∧
      ({ setThread s t { s.threads t with phase := .done (.fail .errClosed) } with
           streamsClosed := s.streamsClosed ++ [strm] } : Sys).gate = s.gate ∧
      ({ setThread s t { s.threads t with phase := .done (.fail .errClosed) } with
           streamsClosed := s.streamsClosed ++ [strm] } : Sys).wrappers = s.wrappers) ∧
    (s.gate.closed = false →
      stepTstep s t =
        some { setThread s t { s.threads t with phase := .done (.conn s.wrappers.length) } with
                 gate := { s.gate with closedCh := some s.nextCh }
                 nextCh := s.nextCh + 1
                 wrappers := s.wrappers ++ [⟨s.nextCh, strm⟩] }) := by
  constructor
  · intro hc
    refine ⟨?_, rfl, rfl⟩
    cases hk : (s.threads t).kind <;> simp [stepTstep, hph, hk, hc]
  · intro hc
    cases hk : (s.threads t).kind <;> simp [stepTstep, hph, hk, hc]

/-- Schedule: call 0 opens its stream successfully, then the gate is
closed before call 0's install section runs. -/
def lateCloseTrace : List Label := [.tstep 0, .openAttempt 0 none, .gateClose]

/-- The late-close schedule runs to completion. -/
theorem lateCloseTrace_isSome :
    (run (initSys ksListener) lateCloseTrace).isSome = true := by decide

/-- State with call 0 holding a fresh stream and the gate already closed. -/
def lateCloseState : Sys :=
  (run (initSys ksListener) lateCloseTrace).get lateCloseTrace_isSome

/-- Witness for C9 at the late-close state: the call discards stream 0
and fails, leaving the gate and wrapper list unchanged. -/
theorem turnstile_C9_late_close_discards_stream_witness :
    stepTstep lateCloseState 0 =
      some { setThread lateCloseState 0
               { lateCloseState.threads 0 with phase := .done (.fail .errClosed) } with
               streamsClosed := lateCloseState.streamsClosed ++ [0] } ∧
    ({ setThread lateCloseState 0
         { lateCloseState.threads 0 with phase := .done (.fail .errClosed) } with
         streamsClosed := lateCloseState.streamsClosed ++ [0] } : Sys).gate =
      lateCloseState.gate := by
  obtain ⟨h1, _⟩ :=
    turnstile_C9_late_close_discards_stream lateCloseState 0 100 0 (by decide)
  obtain ⟨ha, hb, _⟩ := h1 (by decide)
  exact ⟨ha, hb⟩

/-- C10: a `DialContext` call whose context is already cancelled fails
with the context's error in its very first step, before the gate's state
is consulted at all: the step's result does not depend on the gate and
leaves it untouched, so even on an already-closed gate the call reports
the cancellation error and not the gate-closed error. -/
theorem turnstile_C10_cancellation_precedence (s : Sys) (t : Nat)
    (hk : (s.threads t).kind = .dialer) (hph : (s.threads t).phase = .entry)
    (hcx : (s.threads t).ctxCancelled = true) :
    stepTstep s t =
      some (setThread s t { s.threads t with phase := .done (.fail .ctxCanceled) }) ∧
    (setThread s t { s.threads t with phase := .done (.fail .ctxCanceled) }).gate =
      s.gate := by
  refine ⟨?_, rfl⟩
  simp [stepTstep, hph, hk, hcx]

/-- Closing a fresh dialer gate and cancelling call 0's context runs to
completion. -/
theorem closedCancelledTrace_isSome :
    (run (initSys ksDialer) [Label.gateClose, Label.cancelCtx 0]).isSome = true := by decide

/-- An already-closed dialer gate with call 0's context already
cancelled. -/
def closedCancelledState : Sys :=
  (run (initSys ksDialer) [Label.gateClose, Label.cancelCtx 0]).get
    closedCancelledTrace_isSome

/-- Witness for C10 on an already-closed gate: the cancelled call's first
step yields the cancellation error, not the gate-closed error. -/
theorem turnstile_C10_cancellation_precedence_witness :
    stepTstep closedCancelledState 0 =
      some (setThread closedCancelledState 0
        { closedCancelledState.threads 0 with phase := .done (.fail .ctxCanceled) }) ∧
    closedCancelledState.gate.closed = true := by
  obtain ⟨h1, _⟩ :=
    turnstile_C10_cancellation_precedence closedCancelledState 0
      (by decide) (by decide) (by decide)
  exact ⟨h1, by decide⟩
